import Mathlib

/-!
Verification of the pricefeeding repository's reliability core: the
multi-source price cache (pricefeed/price_cache.go), the size-estimator
registry (price_size_estimator.go), the Chainlink fetch/failover client
(chainlink package) and the RPC endpoint selector (rpcscan/rpcswitcher.go).

Go strings are modelled as `List Char`, Go maps as association lists with
pairwise-distinct keys (the well-formedness predicate `PriceCache.WF`),
`time.Time` and `time.Duration` as `Int` (nanoseconds), `*big.Int` as
`Option Int` (`none` is the nil pointer), and fallible calls as
`Except`/`Option` values.  Byte-size accounting is modelled with unbounded
integers: no claim checked here depends on int64 wraparound.
-/

set_option maxHeartbeats 1000000

/-- Go strings are modelled as lists of characters. -/
abbrev Str := List Char

/-- Association-list lookup; models reading a Go map (first matching key). -/
def lookupA {α β : Type} [DecidableEq α] : List (α × β) → α → Option β
  | [], _ => none
  | (k, v) :: rest, a => if k = a then some v else lookupA rest a

/-- Association-list insert-or-replace; models writing a Go map entry. -/
def insertA {α β : Type} [DecidableEq α] : List (α × β) → α → β → List (α × β)
  | [], a, b => [(a, b)]
  | (k, v) :: rest, a, b => if k = a then (a, b) :: rest else (k, v) :: insertA rest a b

/-- Association-list delete (first occurrence); models Go map `delete`. -/
def deleteA {α β : Type} [DecidableEq α] : List (α × β) → α → List (α × β)
  | [], _ => []
  | (k, v) :: rest, a => if k = a then rest else (k, v) :: deleteA rest a

theorem lookupA_insertA_self {α β : Type} [DecidableEq α] (l : List (α × β)) (k : α) (v : β) :
    lookupA (insertA l k v) k = some v := by
  induction l with
  | nil => simp [insertA, lookupA]
  | cons p rest ih =>
    obtain ⟨pk, pv⟩ := p
    by_cases h : pk = k
    · simp [insertA, lookupA, h]
    · simp [insertA, lookupA, h, ih]

theorem lookupA_insertA_ne {α β : Type} [DecidableEq α] (l : List (α × β)) (k k' : α) (v : β)
    (h : k' ≠ k) : lookupA (insertA l k v) k' = lookupA l k' := by
  induction l with
  | nil => simp [insertA, lookupA, Ne.symm h]
  | cons p rest ih =>
    obtain ⟨pk, pv⟩ := p
    by_cases hp : pk = k
    · subst hp
      simp [insertA, lookupA, Ne.symm h]
    · by_cases hp' : pk = k'
      · subst hp'
        simp [insertA, lookupA, hp, h]
      · simp [insertA, lookupA, hp, hp', ih]

theorem lookupA_eq_none_iff {α β : Type} [DecidableEq α] (l : List (α × β)) (k : α) :
    lookupA l k = none ↔ k ∉ l.map Prod.fst := by
  induction l with
  | nil => simp [lookupA]
  | cons p rest ih =>
    obtain ⟨pk, pv⟩ := p
    by_cases h : pk = k
    · simp [lookupA, h]
    · simp [lookupA, h, ih, Ne.symm h]

theorem lookupA_isSome_iff {α β : Type} [DecidableEq α] (l : List (α × β)) (k : α) :
    (lookupA l k).isSome = true ↔ k ∈ l.map Prod.fst := by
  rw [Option.isSome_iff_ne_none]
  constructor
  · intro h
    by_contra hmem
    exact h ((lookupA_eq_none_iff l k).2 hmem)
  · intro h hn
    exact ((lookupA_eq_none_iff l k).1 hn) h

theorem insertA_of_not_mem {α β : Type} [DecidableEq α] (l : List (α × β)) (k : α) (v : β)
    (h : k ∉ l.map Prod.fst) : insertA l k v = l ++ [(k, v)] := by
  induction l with
  | nil => simp [insertA]
  | cons p rest ih =>
    obtain ⟨pk, pv⟩ := p
    simp only [List.map_cons, List.mem_cons] at h
    push_neg at h
    simp [insertA, Ne.symm h.1, ih h.2]

theorem map_fst_insertA {α β : Type} [DecidableEq α] (l : List (α × β)) (k : α) (v : β) :
    (insertA l k v).map Prod.fst = if k ∈ l.map Prod.fst then l.map Prod.fst
      else l.map Prod.fst ++ [k] := by
  induction l with
  | nil => simp [insertA]
  | cons p rest ih =>
    obtain ⟨pk, pv⟩ := p
    by_cases h : pk = k
    · simp [insertA, h]
    · by_cases h2 : k ∈ rest.map Prod.fst <;>
        simp [insertA, h, ih, h2, Ne.symm h]

theorem nodup_map_fst_insertA {α β : Type} [DecidableEq α] (l : List (α × β)) (k : α) (v : β)
    (h : (l.map Prod.fst).Nodup) : ((insertA l k v).map Prod.fst).Nodup := by
  rw [map_fst_insertA]
  by_cases h2 : k ∈ l.map Prod.fst
  · simpa [h2] using h
  · simp only [h2, if_false]
    exact List.Nodup.append h (List.nodup_singleton k) (by simpa using h2)

theorem mem_insertA {α β : Type} [DecidableEq α] (l : List (α × β)) (k : α) (v : β) (p : α × β)
    (h : p ∈ insertA l k v) : p = (k, v) ∨ p ∈ l := by
  induction l with
  | nil => simpa [insertA] using h
  | cons q rest ih =>
    obtain ⟨qk, qv⟩ := q
    by_cases hq : qk = k
    · simp only [insertA, if_pos hq, List.mem_cons] at h
      rcases h with h | h
      · exact Or.inl h
      · exact Or.inr (List.mem_cons_of_mem _ h)
    · simp only [insertA, if_neg hq, List.mem_cons] at h
      rcases h with h | h
      · exact Or.inr (h ▸ List.mem_cons_self _ _)
      · rcases ih h with h' | h'
        · exact Or.inl h'
        · exact Or.inr (List.mem_cons_of_mem _ h')

/-- Decimal digit character, used to model Go's integer formatting. -/
def digitChar : Nat → Char
  | 0 => '0' | 1 => '1' | 2 => '2' | 3 => '3' | 4 => '4'
  | 5 => '5' | 6 => '6' | 7 => '7' | 8 => '8' | 9 => '9'
  | _ => '*'

/-- Inverse of `digitChar` on decimal digits. -/
def digitVal (c : Char) : Nat := c.toNat - 48

/-- Accumulator-style decimal rendering of a natural number. -/
def natToDecAux (n : Nat) (acc : Str) : Str :=
  if h : n < 10 then digitChar n :: acc
  else natToDecAux (n / 10) (digitChar (n % 10) :: acc)
termination_by n
decreasing_by exact Nat.div_lt_self (by omega) (by omega)

/-- Decimal rendering of a natural number; models Go's `%d` formatting. -/
def natToDec (n : Nat) : Str := natToDecAux n []

theorem digitVal_digitChar (d : Nat) (h : d < 10) : digitVal (digitChar d) = d := by
  interval_cases d <;> rfl

theorem digitChar_ne_colon (d : Nat) : digitChar d ≠ ':' := by
  unfold digitChar
  split <;> decide

theorem natToDecAux_append (n : Nat) (acc : Str) :
    natToDecAux n acc = natToDecAux n [] ++ acc := by
  induction n using Nat.strong_induction_on generalizing acc with
  | _ n ih =>
    by_cases h : n < 10
    · rw [natToDecAux]
      conv_rhs => rw [natToDecAux]
      simp [h]
    · rw [natToDecAux]
      conv_rhs => rw [natToDecAux]
      simp only [h, dif_neg, not_false_iff]
      rw [ih (n / 10) (Nat.div_lt_self (by omega) (by omega)),
        ih (n / 10) (Nat.div_lt_self (by omega) (by omega)) [digitChar (n % 10)]]
      simp

/-- Decimal value of a digit string; used only to prove `natToDec` injective. -/
def decValue (s : Str) : Nat := s.foldl (fun a c => a * 10 + digitVal c) 0

theorem decValue_append_single (s : Str) (c : Char) :
    decValue (s ++ [c]) = decValue s * 10 + digitVal c := by
  simp [decValue, List.foldl_append]

theorem decValue_natToDec (n : Nat) : decValue (natToDec n) = n := by
  induction n using Nat.strong_induction_on with
  | _ n ih =>
    by_cases h : n < 10
    · unfold natToDec natToDecAux
      simp only [h, dif_pos]
      simpa [decValue] using digitVal_digitChar n h
    · unfold natToDec
      rw [natToDecAux]
      simp only [h, dif_neg, not_false_iff]
      rw [natToDecAux_append]
      rw [decValue_append_single]
      rw [show natToDecAux (n / 10) [] = natToDec (n / 10) from rfl]
      rw [ih (n / 10) (Nat.div_lt_self (by omega) (by omega))]
      rw [digitVal_digitChar _ (Nat.mod_lt _ (by omega))]
      omega

theorem natToDec_injective : Function.Injective natToDec := by
  intro m n h
  have := decValue_natToDec m
  rw [h, decValue_natToDec] at this
  omega

theorem mem_natToDecAux (n : Nat) (acc : Str) (c : Char) (h : c ∈ natToDecAux n acc) :
    (∃ d, c = digitChar d) ∨ c ∈ acc := by
  induction n using Nat.strong_induction_on generalizing acc with
  | _ n ih =>
    by_cases hn : n < 10
    · rw [natToDecAux] at h
      simp only [hn, dif_pos, List.mem_cons] at h
      rcases h with h | h
      · exact Or.inl ⟨n, h⟩
      · exact Or.inr h
    · rw [natToDecAux] at h
      simp only [hn, dif_neg, not_false_iff] at h
      rcases ih (n / 10) (Nat.div_lt_self (by omega) (by omega)) _ h with h' | h'
      · exact Or.inl h'
      · rcases List.mem_cons.1 h' with h'' | h''
        · exact Or.inl ⟨n % 10, h''⟩
        · exact Or.inr h''

theorem colon_not_mem_natToDec (n : Nat) : ':' ∉ natToDec n := by
  intro h
  rcases mem_natToDecAux n [] ':' h with ⟨d, hd⟩ | h'
  · exact digitChar_ne_colon d hd.symm
  · simp at h'

/-- Splitting at a separator character that occurs in neither left part is unique. -/
theorem append_cons_inj {c : Char} {as bs as' bs' : Str}
    (h : as ++ c :: bs = as' ++ c :: bs') (ha : c ∉ as) (ha' : c ∉ as') :
    as = as' ∧ bs = bs' := by
  induction as generalizing as' with
  | nil =>
    cases as' with
    | nil => simpa using h
    | cons x t =>
      simp only [List.nil_append, List.cons_append, List.cons.injEq] at h
      exact absurd (h.1 ▸ List.mem_cons_self x t) ha'
  | cons x t ih =>
    cases as' with
    | nil =>
      simp only [List.nil_append, List.cons_append, List.cons.injEq] at h
      exact absurd (h.1.symm ▸ List.mem_cons_self x t) ha
    | cons y t' =>
      simp only [List.cons_append, List.cons.injEq] at h
      have ht := ih h.2 (fun hc => ha (List.mem_cons_of_mem _ hc))
        (fun hc => ha' (List.mem_cons_of_mem _ hc))
      exact ⟨by rw [h.1, ht.1], ht.2⟩

/-- PriceSource identifies the data provider (types/morpher.go). -/
abbrev PriceSource := Str

/-- SourceChainlink constant from types/morpher.go. -/
def SourceChainlink : PriceSource := (r"chainlink").toList

/-- SourcePyth constant from types/morpher.go. -/
def SourcePyth : PriceSource := (r"pyth").toList

/-- ChainlinkPrice from types/morpher.go.  The five `*big.Int` fields are
`Option Int` (`none` models a nil pointer); `Timestamp` is `time.Time`
modelled as an integer instant. -/
structure ChainlinkPrice where
  RoundID : Option Int
  Answer : Option Int
  StartedAt : Option Int
  UpdatedAt : Option Int
  AnsweredInRound : Option Int
  Timestamp : Int
  Exponent : Int
  NetworkID : Nat
  FeedAddress : Str
deriving DecidableEq

/-- PythPrice from types/morpher.go. -/
structure PythPrice where
  ID : Str
  Symbol : Str
  Price : Option Int
  Confidence : Option Int
  Exponent : Int
  PublishTime : Int
  Slot : Int
  Timestamp : Int
  NetworkID : Nat
  EMA : Option Int
  EMAConfidence : Option Int
deriving DecidableEq

/-- SatoshiScale. Modelled from the spec: the constant comes from the external
`safem` dependency (not part of this repository); the spec and the code's
comments fix the satoshi format at 1e8. -/
def SatoshiScale : Int := 100000000

/-- Behaviour of Go's `new(big.Int).Exp(x, y, nil)`: for a negative exponent
and a nil modulus the result is 1. -/
def bigIntExpGo (x y : Int) : Int :=
  if y < 0 then 1 else x ^ y.toNat

/-- GetPriceInSatoshi from types/morpher.go.  Returns the Go pair
`(*big.Int, error)`: first component `none` models the nil result pointer. -/
def ChainlinkPrice.GetPriceInSatoshi (p : ChainlinkPrice) : Option Int × Option Str :=
  match p.Answer with
  | none => (none, some ((r"Answer is nil").toList))
  | some answer =>
    let exponentFactor := bigIntExpGo 10 p.Exponent
    let adjustment := exponentFactor * SatoshiScale
    (some (answer * adjustment), none)

/-- Behaviour of `(*big.Int).Uint64`: the low 64 bits of the absolute value.
Calling it through a nil pointer panics, modelled by `none`. -/
def bigIntUint64 : Option Int → Option Nat
  | none => none
  | some z => some (z.natAbs % 2 ^ 64)

/-- GetUint64SatoshiPrice from types/morpher.go: discards the error of
`GetPriceInSatoshi` and dereferences the (possibly nil) result.  A `none`
result models the run-time panic on a nil pointer. -/
def ChainlinkPrice.GetUint64SatoshiPrice (p : ChainlinkPrice) : Option Nat :=
  bigIntUint64 (p.GetPriceInSatoshi).1

/-- PriceInfo interface values stored in the cache.  `chainlink` and `pyth`
are the two concrete kinds defined in this repository; `other` stands for
any externally defined implementation, carrying its concrete type's name,
its `EstimateSize` method result when it implements `SizablePriceInfo`
(`none` when it does not), and its `GetTimestamp` result. -/
inductive PriceInfo where
  | chainlink (p : ChainlinkPrice)
  | pyth (p : PythPrice)
  | other (kind : Str) (sizableSize : Option Int) (timestamp : Int)
deriving DecidableEq

/-- GetTimestamp of the PriceInfo interface. -/
def PriceInfo.GetTimestamp : PriceInfo → Int
  | .chainlink p => p.Timestamp
  | .pyth p => p.Timestamp
  | .other _ _ ts => ts

/-- Concrete dynamic types of PriceInfo values, modelling `reflect.Type`
keys of the estimator registry. -/
inductive TypeTag where
  | chainlinkPtr
  | pythPtr
  | otherType (kind : Str)
deriving DecidableEq

/-- Dynamic type of a PriceInfo value (models `reflect.TypeOf`). -/
def PriceInfo.typeOf : PriceInfo → TypeTag
  | .chainlink _ => .chainlinkPtr
  | .pyth _ => .pythPtr
  | .other kind _ _ => .otherType kind

/-- Result of the `SizablePriceInfo` interface check: `*types.ChainlinkPrice`
and `*types.PythPrice` do not implement `EstimateSize`; an external type
implements it exactly when it carries a self-reported size. -/
def PriceInfo.sizableSizeOf : PriceInfo → Option Int
  | .chainlink _ => none
  | .pyth _ => none
  | .other _ s _ => s

/-- The `customSizeEstimators` registry of price_size_estimator.go:
a map from concrete type to estimation function. -/
abbrev SizeRegistry := List (TypeTag × (PriceInfo → Int))

/-- EstimatePriceInfoSize from price_size_estimator.go.  Priority order:
nil check, `SizablePriceInfo` self-report, registered custom estimator,
built-in formulas for the two known kinds, conservative constant 100. -/
def EstimatePriceInfoSize (reg : SizeRegistry) : Option PriceInfo → Int
  | none => 0
  | some priceInfo =>
    match priceInfo.sizableSizeOf with
    | some s => s
    | none =>
      match lookupA reg priceInfo.typeOf with
      | some estimator => estimator priceInfo
      | none =>
        match priceInfo with
        | .chainlink p => 5 * 32 + 15 + 8 + 8 + ((p.FeedAddress.length : Int) + 8)
        | .pyth p =>
            ((p.ID.length : Int) + 8) + ((p.Symbol.length : Int) + 8) +
              32 + 32 + 32 + 32 + 8 + 8 + 8 + 15 + 8
        | .other _ _ _ => 100

/-- MaxCacheSizeBytes from price_cache.go: the 10 MB cache cap. -/
def MaxCacheSizeBytes : Int := 10 * 1024 * 1024

/-- PriceCache from pricefeed/price_cache.go: `data` maps a network id to a
map from prefixed identifier to PriceInfo, `feeds` maps a network id to the
list of tracked prefixed identifiers.  A missing outer key models a nil
inner Go map. -/
structure PriceCache where
  data : List (Nat × List (Str × PriceInfo))
  feeds : List (Nat × List Str)
deriving DecidableEq

/-- NewPriceCache: both maps start empty. -/
def NewPriceCache : PriceCache := { data := [], feeds := [] }

/-- makePrefixedIdentifier from price_cache.go: `source ++ ":" ++ identifier`. -/
def makePrefixedIdentifier (source : PriceSource) (identifier : Str) : Str :=
  source ++ ':' :: identifier

/-- Reading `pc.feeds[networkID]`; a missing key is Go's nil slice, which
ranges and appends like the empty list. -/
def PriceCache.feedsOf (pc : PriceCache) (networkID : Nat) : List Str :=
  (lookupA pc.feeds networkID).getD []

/-- AddFeed from price_cache.go: initialises the per-network maps when the
data map has no entry (note that this also resets the feeds list), then
appends the prefixed identifier unless it is already tracked. -/
def PriceCache.AddFeed (pc : PriceCache) (networkID : Nat) (identifier : Str)
    (source : PriceSource) : PriceCache :=
  let prefixed := makePrefixedIdentifier source identifier
  let pc1 := if lookupA pc.data networkID = none then
      { data := insertA pc.data networkID [], feeds := insertA pc.feeds networkID [] }
    else pc
  if prefixed ∈ pc1.feedsOf networkID then pc1
  else { pc1 with feeds := insertA pc1.feeds networkID (pc1.feedsOf networkID ++ [prefixed]) }

/-- GetPrice from price_cache.go. -/
def PriceCache.GetPrice (pc : PriceCache) (networkID : Nat) (identifier : Str)
    (source : PriceSource) : Except Str PriceInfo :=
  let prefixed := makePrefixedIdentifier source identifier
  match lookupA pc.data networkID with
  | none => .error ((r"no data for network ").toList ++ natToDec networkID)
  | some networkData =>
    match lookupA networkData prefixed with
    | none => .error ((r"no price data for feed ").toList ++ identifier ++
        (r" on network ").toList ++ natToDec networkID ++
        (r" (source: ").toList ++ source ++ [')'])
    | some priceInfo => .ok priceInfo

/-- GetAllPricesBySource from price_cache.go: keep the entries whose key
starts with `source ++ ":"` and strip that part from the returned keys. -/
def PriceCache.GetAllPricesBySource (pc : PriceCache) (networkID : Nat)
    (source : PriceSource) : List (Str × PriceInfo) :=
  match lookupA pc.data networkID with
  | none => []
  | some networkData =>
    let pref := source ++ [':']
    (networkData.filter (fun kv => pref.isPrefixOf kv.1)).map
      (fun kv => (kv.1.drop pref.length, kv.2))

/-- The insertion part of UpdatePrice (price_cache.go): write the record
under its prefixed identifier and make sure the feed is tracked. -/
def PriceCache.updatePriceCore (pc : PriceCache) (networkID : Nat) (identifier : Str)
    (source : PriceSource) (priceInfo : PriceInfo) : PriceCache :=
  let prefixed := makePrefixedIdentifier source identifier
  let networkData := (lookupA pc.data networkID).getD []
  let data1 := insertA pc.data networkID (insertA networkData prefixed priceInfo)
  let feeds1 := if prefixed ∈ pc.feedsOf networkID then pc.feeds
    else insertA pc.feeds networkID (pc.feedsOf networkID ++ [prefixed])
  { data := data1, feeds := feeds1 }

/-- estimateSizeUnlocked from price_cache.go: 8 bytes per network plus, for
every record, key length + 8 + the estimated record size, and 8 bytes per
feeds entry plus key length + 8 for every tracked identifier. -/
def PriceCache.estimateSizeUnlocked (reg : SizeRegistry) (pc : PriceCache) : Int :=
  (pc.data.map (fun nd => 8 + (nd.2.map (fun kv =>
      (kv.1.length : Int) + 8 + EstimatePriceInfoSize reg (some kv.2))).sum)).sum +
  (pc.feeds.map (fun nf => 8 + (nf.2.map (fun f => (f.length : Int) + 8)).sum)).sum

/-- One collected tuple of the pruning pass (the local `cacheEntry` struct
of price_cache.go). -/
structure CacheEntry where
  networkID : Nat
  prefixed : Str
  priceInfo : PriceInfo
  timestamp : Int
  entrySize : Int
deriving DecidableEq

/-- Zero value of `cacheEntry`, returned by a Go map read on a missing key. -/
def zeroCacheEntry : CacheEntry :=
  { networkID := 0, prefixed := [], priceInfo := .other [] none 0,
    timestamp := 0, entrySize := 0 }

/-- Collection phase of prune: every record of every network, with its
timestamp and estimated entry size. -/
def collectEntries (reg : SizeRegistry) (data : List (Nat × List (Str × PriceInfo))) :
    List CacheEntry :=
  data.flatMap (fun nd => nd.2.map (fun kv =>
    { networkID := nd.1, prefixed := kv.1, priceInfo := kv.2,
      timestamp := kv.2.GetTimestamp,
      entrySize := (kv.1.length : Int) + 8 + EstimatePriceInfoSize reg (some kv.2) }))

/-- Key of the `latestEntries` map: `fmt.Sprintf("%d:%s", networkID, prefixed)`. -/
def entryKey (e : CacheEntry) : Str := natToDec e.networkID ++ ':' :: e.prefixed

/-- Construction of the `latestEntries` map in prune: keep, per key, the
entry with the greatest timestamp (the first such entry on ties). -/
def buildLatest (entries : List CacheEntry) : List (Str × CacheEntry) :=
  entries.foldl (fun m e =>
    match lookupA m (entryKey e) with
    | none => insertA m (entryKey e) e
    | some existing => if existing.timestamp < e.timestamp then insertA m (entryKey e) e
      else m) []

/-- Removal loop of prune: walk the sorted tuples, stop once under the cap,
skip every tuple that is the most-recent record for its key, delete the
rest (cleaning up a network whose inner map becomes empty). -/
def pruneRemoveLoop (latestEntries : List (Str × CacheEntry)) (totalSize : Int) :
    List CacheEntry → Int → List (Nat × List (Str × PriceInfo)) →
    List (Nat × List (Str × PriceInfo))
  | [], _, data => data
  | e :: rest, removedSize, data =>
    if totalSize - removedSize ≤ MaxCacheSizeBytes then data
    else
      let latest := (lookupA latestEntries (entryKey e)).getD zeroCacheEntry
      if e.timestamp = latest.timestamp ∨ latest.timestamp < e.timestamp then
        pruneRemoveLoop latestEntries totalSize rest removedSize data
      else
        match lookupA data e.networkID with
        | none => pruneRemoveLoop latestEntries totalSize rest removedSize data
        | some networkData =>
          let networkData1 := deleteA networkData e.prefixed
          let data1 := if networkData1 = [] then deleteA data e.networkID
            else insertA data e.networkID networkData1
          pruneRemoveLoop latestEntries totalSize rest (removedSize + e.entrySize) data1

/-- prune from price_cache.go (also exposed as PruneCache on the manager):
collect all entries, return unchanged when at or under the cap, otherwise
sort by timestamp ascending and run the removal loop. -/
def PriceCache.prune (reg : SizeRegistry) (pc : PriceCache) : PriceCache :=
  let entries := collectEntries reg pc.data
  let totalSize := (entries.map (fun e => e.entrySize)).sum
  if totalSize ≤ MaxCacheSizeBytes then pc
  else
    let sorted := entries.mergeSort (fun a b => a.timestamp ≤ b.timestamp)
    let latestEntries := buildLatest sorted
    { pc with data := pruneRemoveLoop latestEntries totalSize sorted 0 pc.data }

/-- UpdatePrice from price_cache.go, instrumented with a Boolean recording
whether the pruner was invoked: insert, re-estimate the size, and prune
exactly when the estimate exceeds the cap. -/
def PriceCache.updatePriceI (reg : SizeRegistry) (pc : PriceCache) (networkID : Nat)
    (identifier : Str) (source : PriceSource) (priceInfo : PriceInfo) :
    PriceCache × Bool :=
  let pc1 := pc.updatePriceCore networkID identifier source priceInfo
  let size := pc1.estimateSizeUnlocked reg
  if MaxCacheSizeBytes < size then (pc1.prune reg, true) else (pc1, false)

/-- UpdatePrice from price_cache.go (the cache state it leaves behind). -/
def PriceCache.UpdatePrice (reg : SizeRegistry) (pc : PriceCache) (networkID : Nat)
    (identifier : Str) (source : PriceSource) (priceInfo : PriceInfo) : PriceCache :=
  (pc.updatePriceI reg networkID identifier source priceInfo).1

/-- Well-formedness of the association-list model: every modelled Go map
has pairwise-distinct keys, and every feeds list is duplicate-free (Go
maintains the latter by the linear scans in AddFeed and UpdatePrice). -/
def PriceCache.WF (pc : PriceCache) : Prop :=
  (pc.data.map Prod.fst).Nodup ∧
  (∀ nd ∈ pc.data, (nd.2.map Prod.fst).Nodup) ∧
  (pc.feeds.map Prod.fst).Nodup ∧
  (∀ nf ∈ pc.feeds, nf.2.Nodup)

instance (pc : PriceCache) : Decidable pc.WF := by
  unfold PriceCache.WF
  infer_instance

/-- Cache states reachable through the exported API, starting from
NewPriceCache. -/
inductive Reachable : PriceCache → Prop where
  | new : Reachable NewPriceCache
  | addFeed {pc : PriceCache} (networkID : Nat) (identifier : Str) (source : PriceSource) :
      Reachable pc → Reachable (pc.AddFeed networkID identifier source)
  | updatePrice {pc : PriceCache} (reg : SizeRegistry) (networkID : Nat) (identifier : Str)
      (source : PriceSource) (priceInfo : PriceInfo) :
      Reachable pc → Reachable (pc.UpdatePrice reg networkID identifier source priceInfo)
  | pruneCache {pc : PriceCache} (reg : SizeRegistry) :
      Reachable pc → Reachable (pc.prune reg)

theorem lookupA_mem {α β : Type} [DecidableEq α] (l : List (α × β)) (k : α) (v : β)
    (h : lookupA l k = some v) : (k, v) ∈ l := by
  induction l with
  | nil => simp [lookupA] at h
  | cons p rest ih =>
    obtain ⟨pk, pv⟩ := p
    by_cases hk : pk = k
    · subst hk
      simp [lookupA] at h
      subst h
      exact List.mem_cons_self _ _
    · simp only [lookupA, if_neg hk] at h
      exact List.mem_cons_of_mem _ (ih h)

theorem natColonKey_inj {n n' : Nat} {p p' : Str}
    (h : natToDec n ++ ':' :: p = natToDec n' ++ ':' :: p') : n = n' ∧ p = p' := by
  have := append_cons_inj h (colon_not_mem_natToDec n) (colon_not_mem_natToDec n')
  exact ⟨natToDec_injective this.1, this.2⟩

theorem map_entryKey_collectEntries (reg : SizeRegistry)
    (data : List (Nat × List (Str × PriceInfo))) :
    (collectEntries reg data).map entryKey
      = data.flatMap (fun nd => nd.2.map (fun kv => natToDec nd.1 ++ ':' :: kv.1)) := by
  simp [collectEntries, List.map_flatMap, List.map_map, Function.comp_def, entryKey]

theorem keys_collectEntries_nodup (reg : SizeRegistry) (pc : PriceCache) (h : pc.WF) :
    ((collectEntries reg pc.data).map entryKey).Nodup := by
  rw [map_entryKey_collectEntries]
  rw [List.nodup_flatMap]
  constructor
  · intro nd hnd
    have hinner := h.2.1 nd hnd
    have hrw : nd.2.map (fun kv => natToDec nd.1 ++ ':' :: kv.1)
        = (nd.2.map Prod.fst).map (fun p => natToDec nd.1 ++ ':' :: p) := by
      simp [List.map_map, Function.comp]
    rw [hrw]
    refine hinner.map ?_
    intro a b hab
    exact (natColonKey_inj hab).2
  · have hfst : pc.data.Pairwise (fun a b => a.1 ≠ b.1) := by
      have h1 := h.1
      rw [List.Nodup, List.pairwise_map] at h1
      exact h1
    refine hfst.imp ?_
    intro a b hab
    intro x hxa hxb
    simp only [List.mem_map] at hxa hxb
    obtain ⟨kva, _, hka⟩ := hxa
    obtain ⟨kvb, _, hkb⟩ := hxb
    exact hab ((natColonKey_inj (hka.trans hkb.symm)).1)

theorem buildLatest_foldl_eq (l : List CacheEntry) (acc : List (Str × CacheEntry))
    (hnd : (l.map entryKey).Nodup)
    (hacc : ∀ e ∈ l, entryKey e ∉ acc.map Prod.fst) :
    l.foldl (fun m e =>
      match lookupA m (entryKey e) with
      | none => insertA m (entryKey e) e
      | some existing => if existing.timestamp < e.timestamp then insertA m (entryKey e) e
        else m) acc = acc ++ l.map (fun e => (entryKey e, e)) := by
  induction l generalizing acc with
  | nil => simp
  | cons e rest ih =>
    simp only [List.map_cons, List.nodup_cons] at hnd
    have hlook : lookupA acc (entryKey e) = none :=
      (lookupA_eq_none_iff _ _).2 (hacc e (List.mem_cons_self _ _))
    simp only [List.foldl_cons, hlook]
    rw [insertA_of_not_mem _ _ _ (hacc e (List.mem_cons_self _ _))]
    rw [ih (acc ++ [(entryKey e, e)]) hnd.2 ?hacc']
    · simp
    case hacc' =>
      intro e' he'
      simp only [List.map_append, List.mem_append, List.map_cons, List.map_nil,
        List.mem_singleton]
      push_neg
      refine ⟨hacc e' (List.mem_cons_of_mem _ he'), ?_⟩
      intro hk
      exact hnd.1 (hk ▸ List.mem_map_of_mem entryKey he')

theorem buildLatest_eq (l : List CacheEntry) (hnd : (l.map entryKey).Nodup) :
    buildLatest l = l.map (fun e => (entryKey e, e)) := by
  unfold buildLatest
  rw [buildLatest_foldl_eq l [] hnd (by simp)]
  simp

theorem lookupA_map_pairing (l : List CacheEntry) (e : CacheEntry)
    (hnd : (l.map entryKey).Nodup) (he : e ∈ l) :
    lookupA (l.map (fun e => (entryKey e, e))) (entryKey e) = some e := by
  induction l with
  | nil => cases he
  | cons e0 rest ih =>
    simp only [List.map_cons, List.nodup_cons] at hnd
    rcases List.mem_cons.1 he with h | h
    · subst h
      simp [lookupA]
    · have hne : entryKey e0 ≠ entryKey e := by
        intro hk
        exact hnd.1 (hk ▸ List.mem_map_of_mem entryKey h)
      simp only [List.map_cons, lookupA, if_neg hne]
      exact ih hnd.2 h

theorem pruneRemoveLoop_id (latestEntries : List (Str × CacheEntry)) (totalSize : Int)
    (l : List CacheEntry) (removedSize : Int) (data : List (Nat × List (Str × PriceInfo)))
    (h : ∀ e ∈ l,
      e.timestamp = ((lookupA latestEntries (entryKey e)).getD zeroCacheEntry).timestamp ∨
      ((lookupA latestEntries (entryKey e)).getD zeroCacheEntry).timestamp < e.timestamp) :
    pruneRemoveLoop latestEntries totalSize l removedSize data = data := by
  induction l generalizing removedSize with
  | nil => rfl
  | cons e rest ih =>
    rw [pruneRemoveLoop]
    by_cases hb : totalSize - removedSize ≤ MaxCacheSizeBytes
    · simp [hb]
    · simp only [if_neg hb]
      rw [if_pos (h e (List.mem_cons_self _ _))]
      exact ih removedSize (fun e' he' => h e' (List.mem_cons_of_mem _ he'))

theorem prune_eq_of_WF (reg : SizeRegistry) (pc : PriceCache) (h : pc.WF) :
    pc.prune reg = pc := by
  simp only [PriceCache.prune]
  by_cases hsize :
      ((collectEntries reg pc.data).map (fun e => e.entrySize)).sum ≤ MaxCacheSizeBytes
  · simp [hsize]
  · rw [if_neg hsize]
    have hperm : List.Perm ((collectEntries reg pc.data).mergeSort
        (fun a b => a.timestamp ≤ b.timestamp)) (collectEntries reg pc.data) :=
      List.mergeSort_perm _ _
    have hnd : (((collectEntries reg pc.data).mergeSort
        (fun a b => a.timestamp ≤ b.timestamp)).map entryKey).Nodup :=
      ((hperm.map entryKey).nodup_iff).2 (keys_collectEntries_nodup reg pc h)
    have hloop : pruneRemoveLoop
        (buildLatest ((collectEntries reg pc.data).mergeSort
          (fun a b => a.timestamp ≤ b.timestamp)))
        (((collectEntries reg pc.data).map (fun e => e.entrySize)).sum)
        ((collectEntries reg pc.data).mergeSort (fun a b => a.timestamp ≤ b.timestamp))
        0 pc.data = pc.data := by
      apply pruneRemoveLoop_id
      intro e he
      rw [buildLatest_eq _ hnd, lookupA_map_pairing _ e hnd he]
      simp
    rw [hloop]

theorem inner_map_nodup (pc : PriceCache) (h : pc.WF) (n : Nat) :
    (((lookupA pc.data n).getD []).map Prod.fst).Nodup := by
  cases hl : lookupA pc.data n with
  | none => simp
  | some inner => simpa using h.2.1 (n, inner) (lookupA_mem _ _ _ hl)

theorem feedsOf_nodup (pc : PriceCache) (h : pc.WF) (n : Nat) : (pc.feedsOf n).Nodup := by
  unfold PriceCache.feedsOf
  cases hl : lookupA pc.feeds n with
  | none => simp
  | some fl => simpa using h.2.2.2 (n, fl) (lookupA_mem _ _ _ hl)

theorem nodup_snoc_fresh {α : Type} {l : List α} {a : α} (h : l.Nodup) (ha : a ∉ l) :
    (l ++ [a]).Nodup :=
  List.Nodup.append h (List.nodup_singleton a) (by simpa using ha)

theorem WF_updatePriceCore (pc : PriceCache) (networkID : Nat) (identifier : Str)
    (source : PriceSource) (priceInfo : PriceInfo) (h : pc.WF) :
    (pc.updatePriceCore networkID identifier source priceInfo).WF := by
  obtain ⟨h1, h2, h3, h4⟩ := h
  refine ⟨?_, ?_, ?_, ?_⟩
  · exact nodup_map_fst_insertA _ _ _ h1
  · intro nd hnd
    simp only [PriceCache.updatePriceCore] at hnd
    rcases mem_insertA _ _ _ _ hnd with heq | hmem
    · subst heq
      exact nodup_map_fst_insertA _ _ _ (inner_map_nodup pc ⟨h1, h2, h3, h4⟩ networkID)
    · exact h2 nd hmem
  · simp only [PriceCache.updatePriceCore]
    by_cases hf : makePrefixedIdentifier source identifier ∈ pc.feedsOf networkID
    · simpa [hf] using h3
    · simp only [hf, if_neg, not_false_iff, if_false]
      exact nodup_map_fst_insertA _ _ _ h3
  · intro nf hnf
    simp only [PriceCache.updatePriceCore] at hnf
    by_cases hf : makePrefixedIdentifier source identifier ∈ pc.feedsOf networkID
    · rw [if_pos hf] at hnf
      exact h4 nf hnf
    · rw [if_neg hf] at hnf
      rcases mem_insertA _ _ _ _ hnf with heq | hmem
      · subst heq
        exact nodup_snoc_fresh (feedsOf_nodup pc ⟨h1, h2, h3, h4⟩ networkID) hf
      · exact h4 nf hmem

theorem WF_AddFeed (pc : PriceCache) (networkID : Nat) (identifier : Str)
    (source : PriceSource) (h : pc.WF) :
    (pc.AddFeed networkID identifier source).WF := by
  simp only [PriceCache.AddFeed]
  set pc1 := if lookupA pc.data networkID = none then
      ({ data := insertA pc.data networkID [], feeds := insertA pc.feeds networkID [] } :
        PriceCache)
    else pc with hpc1
  have hwf1 : pc1.WF := by
    rw [hpc1]
    by_cases hd : lookupA pc.data networkID = none
    · obtain ⟨h1, h2, h3, h4⟩ := h
      rw [if_pos hd]
      refine ⟨nodup_map_fst_insertA _ _ _ h1, ?_, nodup_map_fst_insertA _ _ _ h3, ?_⟩
      · intro nd hnd
        rcases mem_insertA _ _ _ _ hnd with heq | hmem
        · subst heq
          simp
        · exact h2 nd hmem
      · intro nf hnf
        rcases mem_insertA _ _ _ _ hnf with heq | hmem
        · subst heq
          simp
        · exact h4 nf hmem
    · rw [if_neg hd]
      exact h
  by_cases hmem : makePrefixedIdentifier source identifier ∈ pc1.feedsOf networkID
  · simpa [hmem] using hwf1
  · simp only [hmem, if_neg, not_false_iff, if_false]
    obtain ⟨h1, h2, h3, h4⟩ := hwf1
    refine ⟨h1, h2, nodup_map_fst_insertA _ _ _ h3, ?_⟩
    intro nf hnf
    rcases mem_insertA _ _ _ _ hnf with heq | hmem2
    · subst heq
      exact nodup_snoc_fresh (feedsOf_nodup pc1 ⟨h1, h2, h3, h4⟩ networkID) hmem
    · exact h4 nf hmem2

theorem UpdatePrice_eq_core (reg : SizeRegistry) (pc : PriceCache) (networkID : Nat)
    (identifier : Str) (source : PriceSource) (priceInfo : PriceInfo) (h : pc.WF) :
    pc.UpdatePrice reg networkID identifier source priceInfo
      = pc.updatePriceCore networkID identifier source priceInfo := by
  unfold PriceCache.UpdatePrice PriceCache.updatePriceI
  have hwf := WF_updatePriceCore pc networkID identifier source priceInfo h
  by_cases hs : MaxCacheSizeBytes <
      (pc.updatePriceCore networkID identifier source priceInfo).estimateSizeUnlocked reg
  · simp [hs, prune_eq_of_WF reg _ hwf]
  · simp [hs]

theorem Reachable_WF (pc : PriceCache) (h : Reachable pc) : pc.WF := by
  induction h with
  | new => exact ⟨by simp [NewPriceCache], by simp [NewPriceCache], by simp [NewPriceCache],
      by simp [NewPriceCache]⟩
  | addFeed n id source _ ih => exact WF_AddFeed _ n id source ih
  | updatePrice reg n id source v _ ih =>
    rw [UpdatePrice_eq_core reg _ n id source v ih]
    exact WF_updatePriceCore _ n id source v ih
  | pruneCache reg _ ih =>
    rw [prune_eq_of_WF reg _ ih]
    exact ih

/-- C1: for every reachable cache state, invoking the pruner
(PriceCache.prune, exposed as PruneCache) leaves the cache unchanged: each
(network, source, identifier) key holds exactly one record, so every
collected tuple is the most-recent record for its key, the skip condition
matches every tuple, and no entry is ever deleted — even when the total
estimated size exceeds the 10 MiB cap. -/
theorem C1_prune_leaves_cache_unchanged (reg : SizeRegistry) (pc : PriceCache)
    (h : Reachable pc) : pc.prune reg = pc :=
  prune_eq_of_WF reg pc (Reachable_WF pc h)

/-- Witness for C1 at a concrete reachable state. -/
theorem C1_prune_leaves_cache_unchanged_witness :
    Reachable NewPriceCache ∧ NewPriceCache.prune [] = NewPriceCache :=
  ⟨Reachable.new, C1_prune_leaves_cache_unchanged [] NewPriceCache Reachable.new⟩

/-- C2: for every network id, source, identifier and record, UpdatePrice
followed immediately by GetPrice with the same key returns exactly the
stored record with no error, for any prior (well-formed) cache state. -/
theorem C2_put_get_roundtrip (reg : SizeRegistry) (pc : PriceCache) (networkID : Nat)
    (identifier : Str) (source : PriceSource) (priceInfo : PriceInfo) (h : pc.WF) :
    (pc.UpdatePrice reg networkID identifier source priceInfo).GetPrice
      networkID identifier source = .ok priceInfo := by
  rw [UpdatePrice_eq_core reg pc networkID identifier source priceInfo h]
  simp only [PriceCache.updatePriceCore, PriceCache.GetPrice]
  simp [lookupA_insertA_self]

/-- Witness for C2 at a concrete state and key. -/
theorem C2_put_get_roundtrip_witness :
    NewPriceCache.WF ∧
    (NewPriceCache.UpdatePrice [] 1 ((r"0xabc").toList) SourceChainlink
        (.other ((r"T").toList) none 5)).GetPrice 1 ((r"0xabc").toList) SourceChainlink
      = .ok (.other ((r"T").toList) none 5) :=
  ⟨by decide, C2_put_get_roundtrip [] NewPriceCache 1 ((r"0xabc").toList) SourceChainlink
    (.other ((r"T").toList) none 5) (by decide)⟩

theorem prune_feeds (reg : SizeRegistry) (pc : PriceCache) :
    (pc.prune reg).feeds = pc.feeds := by
  simp only [PriceCache.prune]
  split <;> rfl

theorem core_feedsOf_self (pc : PriceCache) (n : Nat) (id : Str) (source : PriceSource)
    (v : PriceInfo) :
    (pc.updatePriceCore n id source v).feedsOf n
      = if makePrefixedIdentifier source id ∈ pc.feedsOf n then pc.feedsOf n
        else pc.feedsOf n ++ [makePrefixedIdentifier source id] := by
  simp only [PriceCache.updatePriceCore, PriceCache.feedsOf]
  by_cases hf : makePrefixedIdentifier source id ∈ (lookupA pc.feeds n).getD []
  · simp [hf]
  · simp [hf, lookupA_insertA_self]

/-- C6: every UpdatePrice call, after inserting the record and registering
the key as tracked, re-estimates the total cache size and invokes the
pruner exactly when the estimate exceeds the cap, which is the
compile-time constant 10 MiB = 10 * 1024 * 1024 bytes; at or below the cap
the pruner is not invoked. -/
theorem C6_put_triggers_prune_iff_over_cap (reg : SizeRegistry) (pc : PriceCache)
    (networkID : Nat) (identifier : Str) (source : PriceSource) (priceInfo : PriceInfo) :
    MaxCacheSizeBytes = 10 * 1024 * 1024 ∧
    ((pc.updatePriceI reg networkID identifier source priceInfo).2 = true ↔
      MaxCacheSizeBytes <
        (pc.updatePriceCore networkID identifier source priceInfo).estimateSizeUnlocked reg) ∧
    makePrefixedIdentifier source identifier ∈
      (pc.UpdatePrice reg networkID identifier source priceInfo).feedsOf networkID := by
  refine ⟨rfl, ?_, ?_⟩
  · unfold PriceCache.updatePriceI
    by_cases hs : MaxCacheSizeBytes <
        (pc.updatePriceCore networkID identifier source priceInfo).estimateSizeUnlocked reg
    · simp [hs]
    · simp [hs]
  · have hfeeds : (pc.UpdatePrice reg networkID identifier source priceInfo).feeds
        = (pc.updatePriceCore networkID identifier source priceInfo).feeds := by
      unfold PriceCache.UpdatePrice PriceCache.updatePriceI
      by_cases hs : MaxCacheSizeBytes <
          (pc.updatePriceCore networkID identifier source priceInfo).estimateSizeUnlocked reg
      · simp [hs, prune_feeds]
      · simp [hs]
    have : (pc.UpdatePrice reg networkID identifier source priceInfo).feedsOf networkID
        = (pc.updatePriceCore networkID identifier source priceInfo).feedsOf networkID := by
      simp only [PriceCache.feedsOf, hfeeds]
    rw [this, core_feedsOf_self]
    by_cases hf : makePrefixedIdentifier source identifier ∈ pc.feedsOf networkID
    · simpa [hf] using hf
    · simp [hf]

theorem AddFeed_data (pc : PriceCache) (n : Nat) (id : Str) (source : PriceSource) :
    (pc.AddFeed n id source).data
      = if lookupA pc.data n = none then insertA pc.data n [] else pc.data := by
  simp only [PriceCache.AddFeed]
  by_cases hd : lookupA pc.data n = none
  · simp only [hd, if_pos]
    split <;> rfl
  · simp only [hd, if_neg, not_false_iff, if_false]
    split <;> rfl

theorem AddFeed_feedsOf_ne (pc : PriceCache) (n : Nat) (id : Str) (source : PriceSource)
    (m : Nat) (h : m ≠ n) :
    (pc.AddFeed n id source).feedsOf m = pc.feedsOf m := by
  simp only [PriceCache.AddFeed, PriceCache.feedsOf]
  by_cases hd : lookupA pc.data n = none
  · simp only [hd, if_pos]
    split
    · simp [lookupA_insertA_ne _ _ _ _ h]
    · simp [lookupA_insertA_ne _ _ _ _ h]
  · simp only [hd, if_neg, not_false_iff, if_false]
    split
    · rfl
    · simp [lookupA_insertA_ne _ _ _ _ h]

theorem core_data_lookup_ne (pc : PriceCache) (n : Nat) (id : Str) (source : PriceSource)
    (v : PriceInfo) (m : Nat) (h : m ≠ n) :
    lookupA (pc.updatePriceCore n id source v).data m = lookupA pc.data m := by
  simp only [PriceCache.updatePriceCore]
  exact lookupA_insertA_ne _ _ _ _ h

theorem core_feedsOf_ne (pc : PriceCache) (n : Nat) (id : Str) (source : PriceSource)
    (v : PriceInfo) (m : Nat) (h : m ≠ n) :
    (pc.updatePriceCore n id source v).feedsOf m = pc.feedsOf m := by
  simp only [PriceCache.updatePriceCore, PriceCache.feedsOf]
  split
  · rfl
  · simp [lookupA_insertA_ne _ _ _ _ h]

theorem Reachable_tracked_data (pc : PriceCache) (h : Reachable pc) :
    ∀ n f, f ∈ pc.feedsOf n → lookupA pc.data n ≠ none := by
  induction h with
  | new =>
    intro n f hf
    simp [NewPriceCache, PriceCache.feedsOf, lookupA] at hf
  | @addFeed pc0 n' id source hr ih =>
    intro n f hf
    by_cases hn : n = n'
    · subst hn
      rw [AddFeed_data]
      by_cases hd : lookupA pc0.data n = none
      · simp [hd, lookupA_insertA_self]
      · simp [hd]
    · rw [AddFeed_data]
      rw [AddFeed_feedsOf_ne _ _ _ _ _ hn] at hf
      have hdm := ih n f hf
      by_cases hd : lookupA pc0.data n' = none
      · simp only [hd, if_pos]
        rw [lookupA_insertA_ne _ _ _ _ hn]
        exact hdm
      · simp only [hd, if_neg, not_false_iff, if_false]
        exact hdm
  | @updatePrice pc0 reg n' id source v hr ih =>
    intro n f hf
    rw [UpdatePrice_eq_core reg _ n' id source v (Reachable_WF _ hr)] at hf ⊢
    by_cases hn : n = n'
    · subst hn
      simp only [PriceCache.updatePriceCore]
      simp [lookupA_insertA_self]
    · rw [core_data_lookup_ne _ _ _ _ _ _ hn]
      rw [core_feedsOf_ne _ _ _ _ _ _ hn] at hf
      exact ih n f hf
  | @pruneCache pc0 reg hr ih =>
    intro n f hf
    rw [prune_eq_of_WF reg _ (Reachable_WF _ hr)] at hf ⊢
    exact ih n f hf

theorem AddFeed_of_tracked (pc : PriceCache) (n : Nat) (id : Str) (source : PriceSource)
    (hd : lookupA pc.data n ≠ none)
    (hf : makePrefixedIdentifier source id ∈ pc.feedsOf n) :
    pc.AddFeed n id source = pc := by
  simp only [PriceCache.AddFeed]
  simp [hd, hf]

theorem AddFeed_tracked (pc : PriceCache) (n : Nat) (id : Str) (source : PriceSource) :
    makePrefixedIdentifier source id ∈ (pc.AddFeed n id source).feedsOf n := by
  simp only [PriceCache.AddFeed]
  by_cases hd : lookupA pc.data n = none
  · simp only [hd, if_pos]
    by_cases hf : makePrefixedIdentifier source id ∈
        PriceCache.feedsOf
          { data := insertA pc.data n [], feeds := insertA pc.feeds n [] } n
    · simpa [hf] using hf
    · simp only [hf, if_neg, not_false_iff, if_false]
      simp [PriceCache.feedsOf, lookupA_insertA_self]
  · simp only [hd, if_neg, not_false_iff, if_false]
    by_cases hf : makePrefixedIdentifier source id ∈ pc.feedsOf n
    · simpa [hf] using hf
    · simp only [hf, if_neg, not_false_iff, if_false]
      simp [PriceCache.feedsOf, lookupA_insertA_self]

/-- C9: AddFeed registration is idempotent: a second AddFeed with the same
arguments is a no-op, an AddFeed for a feed that is already tracked in a
reachable state is a no-op, and the tracked-feeds list never gains a
duplicate entry. -/
theorem C9_addfeed_idempotent :
    (∀ (pc : PriceCache) (n : Nat) (id : Str) (source : PriceSource),
      (pc.AddFeed n id source).AddFeed n id source = pc.AddFeed n id source) ∧
    (∀ (pc : PriceCache) (n : Nat) (id : Str) (source : PriceSource), Reachable pc →
      makePrefixedIdentifier source id ∈ pc.feedsOf n → pc.AddFeed n id source = pc) ∧
    (∀ (pc : PriceCache) (n : Nat) (id : Str) (source : PriceSource), pc.WF →
      ((pc.AddFeed n id source).feedsOf n).Nodup) := by
  refine ⟨?_, ?_, ?_⟩
  · intro pc n id source
    exact AddFeed_of_tracked _ _ _ _
      (by
        rw [AddFeed_data]
        by_cases hd : lookupA pc.data n = none
        · simp [hd, lookupA_insertA_self]
        · simp [hd])
      (AddFeed_tracked pc n id source)
  · intro pc n id source hr hf
    exact AddFeed_of_tracked _ _ _ _
      (Reachable_tracked_data pc hr n (makePrefixedIdentifier source id) hf) hf
  · intro pc n id source hwf
    exact feedsOf_nodup _ (WF_AddFeed pc n id source hwf) n

/-- Witness for C9 at a concrete cache and feed. -/
theorem C9_addfeed_idempotent_witness :
    ((NewPriceCache.AddFeed 1 ((r"0xf").toList) SourceChainlink).AddFeed 1
        ((r"0xf").toList) SourceChainlink
      = NewPriceCache.AddFeed 1 ((r"0xf").toList) SourceChainlink) ∧
    (Reachable (NewPriceCache.AddFeed 1 ((r"0xf").toList) SourceChainlink) ∧
      makePrefixedIdentifier SourceChainlink ((r"0xf").toList) ∈
        (NewPriceCache.AddFeed 1 ((r"0xf").toList) SourceChainlink).feedsOf 1 ∧
      (NewPriceCache.AddFeed 1 ((r"0xf").toList) SourceChainlink).AddFeed 1
          ((r"0xf").toList) SourceChainlink
        = NewPriceCache.AddFeed 1 ((r"0xf").toList) SourceChainlink) ∧
    (NewPriceCache.WF ∧
      ((NewPriceCache.AddFeed 1 ((r"0xf").toList) SourceChainlink).feedsOf 1).Nodup) :=
  ⟨C9_addfeed_idempotent.1 NewPriceCache 1 ((r"0xf").toList) SourceChainlink,
    ⟨Reachable.addFeed 1 ((r"0xf").toList) SourceChainlink Reachable.new,
      by decide,
      C9_addfeed_idempotent.2.1 (NewPriceCache.AddFeed 1 ((r"0xf").toList) SourceChainlink)
        1 ((r"0xf").toList) SourceChainlink
        (Reachable.addFeed 1 ((r"0xf").toList) SourceChainlink Reachable.new) (by decide)⟩,
    ⟨by decide,
      C9_addfeed_idempotent.2.2 NewPriceCache 1 ((r"0xf").toList) SourceChainlink (by decide)⟩⟩

theorem key_of_isPrefixOf {pref k : Str} (h : pref.isPrefixOf k = true) :
    k = pref ++ k.drop pref.length := by
  rw [List.isPrefixOf_iff_prefix] at h
  obtain ⟨t, ht⟩ := h
  rw [← ht, List.drop_left]

theorem filter_keyPred_insertA {α β : Type} [DecidableEq α] (l : List (α × β)) (k : α) (v : β)
    (p : α → Bool) (hp : p k = false) :
    (insertA l k v).filter (fun kv => p kv.1) = l.filter (fun kv => p kv.1) := by
  induction l with
  | nil => simp [insertA, hp]
  | cons q rest ih =>
    obtain ⟨qk, qv⟩ := q
    by_cases hq : qk = k
    · subst hq
      simp [insertA, hp]
    · simp only [insertA, if_neg hq]
      by_cases hpq : p qk
      · simp [List.filter_cons, hpq, ih]
      · simp only [Bool.not_eq_true] at hpq
        simp [List.filter_cons, hpq, ih]

theorem source_key_not_prefixed {source source' id' : Str}
    (hs : ':' ∉ source) (hs' : ':' ∉ source') (hne : source ≠ source') :
    (source ++ [':']).isPrefixOf (source' ++ ':' :: id') = false := by
  by_contra h
  simp only [Bool.not_eq_false] at h
  rw [List.isPrefixOf_iff_prefix] at h
  obtain ⟨t, ht⟩ := h
  rw [List.append_assoc] at ht
  simp only [List.singleton_append] at ht
  exact hne (append_cons_inj ht hs hs').1

/-- C7 (amended): GetAllPricesBySource returns exactly the records whose
internal key is the queried source followed by a colon and the returned
identifier (equivalently: whose key starts with the `source ++ ":"` string,
with that part stripped), and — provided the source strings involved
contain no colon, as the repository's real sources do — a record inserted
under a different source never appears in the result.  The original claim,
with no restriction on the source strings, is refuted by
`C7_source_isolation_counterexample`. -/
theorem C7_get_all_by_source (pc : PriceCache) (networkID : Nat) (source : PriceSource)
    (id' : Str) (v : PriceInfo) :
    ((id', v) ∈ pc.GetAllPricesBySource networkID source ↔
      (source ++ ':' :: id', v) ∈ (lookupA pc.data networkID).getD []) ∧
    (∀ (reg : SizeRegistry) (source' : PriceSource), pc.WF → ':' ∉ source → ':' ∉ source' →
      source ≠ source' →
      (pc.UpdatePrice reg networkID id' source' v).GetAllPricesBySource networkID source
        = pc.GetAllPricesBySource networkID source) := by
  constructor
  · unfold PriceCache.GetAllPricesBySource
    cases hl : lookupA pc.data networkID with
    | none => simp
    | some inner =>
      simp only [Option.getD_some]
      constructor
      · intro hmem
        simp only [List.mem_map, List.mem_filter] at hmem
        obtain ⟨kv, ⟨hkv, hp⟩, heq⟩ := hmem
        have hk := key_of_isPrefixOf hp
        have hdrop : kv.1.drop (source ++ [':']).length = id' := by
          have := congrArg Prod.fst heq
          simpa using this
        have hv : kv.2 = v := by
          have := congrArg Prod.snd heq
          simpa using this
        have : kv = (source ++ ':' :: id', v) := by
          have h1 : kv.1 = source ++ ':' :: id' := by
            rw [hk, hdrop]
            simp
          exact Prod.ext h1 hv
        rw [← this]
        exact hkv
      · intro hmem
        simp only [List.mem_map, List.mem_filter]
        refine ⟨(source ++ ':' :: id', v), ⟨hmem, ?_⟩, ?_⟩
        · rw [List.isPrefixOf_iff_prefix]
          exact ⟨id', by simp⟩
        · have : source ++ ':' :: id' = (source ++ [':']) ++ id' := by simp
          rw [this, List.drop_left]
  · intro reg source' hwf hs hs' hne
    rw [UpdatePrice_eq_core reg pc networkID id' source' v hwf]
    unfold PriceCache.updatePriceCore PriceCache.GetAllPricesBySource
    simp only [lookupA_insertA_self]
    rw [show makePrefixedIdentifier source' id' = source' ++ ':' :: id' from rfl]
    rw [filter_keyPred_insertA _ _ _ _ (source_key_not_prefixed hs hs' hne)]
    cases hl : lookupA pc.data networkID with
    | none => simp
    | some inner => simp

/-- Counterexample to C7 as stated: with a colon inside a source string the
prefix scheme does not isolate sources — a record inserted under source "a"
with identifier "b:c" shows up in the listing for source "a:b" as
identifier "c". -/
theorem C7_source_isolation_counterexample :
    (r"a").toList ≠ (r"a:b").toList ∧
    (NewPriceCache.UpdatePrice [] 1 ((r"b:c").toList) ((r"a").toList)
        (.other ((r"k").toList) none 0)).GetAllPricesBySource 1 ((r"a:b").toList)
      = [(((r"c").toList), .other ((r"k").toList) none 0)] := by
  constructor
  · decide
  · decide

/-- Witness for C7 at concrete inputs. -/
theorem C7_get_all_by_source_witness :
    (((r"x").toList, (.other ((r"k").toList) none 0 : PriceInfo)) ∈
        NewPriceCache.GetAllPricesBySource 1 SourceChainlink ↔
      (SourceChainlink ++ ':' :: (r"x").toList, (.other ((r"k").toList) none 0 : PriceInfo)) ∈
        (lookupA NewPriceCache.data 1).getD []) ∧
    (NewPriceCache.WF ∧ ':' ∉ SourceChainlink ∧ ':' ∉ SourcePyth ∧
      SourceChainlink ≠ SourcePyth ∧
      (NewPriceCache.UpdatePrice [] 1 ((r"x").toList) SourcePyth
          (.other ((r"k").toList) none 0)).GetAllPricesBySource 1 SourceChainlink
        = NewPriceCache.GetAllPricesBySource 1 SourceChainlink) :=
  ⟨(C7_get_all_by_source NewPriceCache 1 SourceChainlink ((r"x").toList)
      (.other ((r"k").toList) none 0)).1,
   ⟨by decide, by decide, by decide, by decide,
    (C7_get_all_by_source NewPriceCache 1 SourceChainlink ((r"x").toList)
        (.other ((r"k").toList) none 0)).2 [] SourcePyth
      (by decide) (by decide) (by decide) (by decide)⟩⟩

/-- C8: EstimatePriceInfoSize resolves a record's size in priority order:
(1) a `SizablePriceInfo` self-report wins; (2) otherwise a registered
estimator for the record's concrete type; (3) otherwise the built-in
formulas for ChainlinkPrice and PythPrice; (4) otherwise the conservative
constant 100. -/
theorem C8_estimate_priority (reg : SizeRegistry) (priceInfo : PriceInfo) :
    (∀ s, priceInfo.sizableSizeOf = some s → EstimatePriceInfoSize reg (some priceInfo) = s) ∧
    (priceInfo.sizableSizeOf = none →
      ∀ est, lookupA reg priceInfo.typeOf = some est →
        EstimatePriceInfoSize reg (some priceInfo) = est priceInfo) ∧
    (priceInfo.sizableSizeOf = none → lookupA reg priceInfo.typeOf = none →
      (∀ p, priceInfo = .chainlink p →
        EstimatePriceInfoSize reg (some priceInfo)
          = 5 * 32 + 15 + 8 + 8 + ((p.FeedAddress.length : Int) + 8)) ∧
      (∀ p, priceInfo = .pyth p →
        EstimatePriceInfoSize reg (some priceInfo)
          = ((p.ID.length : Int) + 8) + ((p.Symbol.length : Int) + 8) +
              32 + 32 + 32 + 32 + 8 + 8 + 8 + 15 + 8) ∧
      (∀ kind ts, priceInfo = .other kind none ts →
        EstimatePriceInfoSize reg (some priceInfo) = 100)) := by
  refine ⟨?_, ?_, ?_⟩
  · intro s hs
    simp [EstimatePriceInfoSize, hs]
  · intro hs est hest
    simp [EstimatePriceInfoSize, hs, hest]
  · intro hs hreg
    refine ⟨?_, ?_, ?_⟩
    · intro p hp
      subst hp
      simp [EstimatePriceInfoSize, PriceInfo.sizableSizeOf] at hreg ⊢
      simp [hreg]
    · intro p hp
      subst hp
      simp [EstimatePriceInfoSize, PriceInfo.sizableSizeOf] at hreg ⊢
      simp [hreg]
    · intro kind ts hp
      subst hp
      simp [EstimatePriceInfoSize, PriceInfo.sizableSizeOf] at hreg ⊢
      simp [hreg]

/-- Witness for C8: a self-reporting record returns its own estimate, and
with an empty registry an unknown kind falls back to the constant 100. -/
theorem C8_estimate_priority_witness :
    ((PriceInfo.other ((r"K").toList) (some 42) 0).sizableSizeOf = some 42 ∧
      EstimatePriceInfoSize [] (some (.other ((r"K").toList) (some 42) 0)) = 42) ∧
    ((PriceInfo.other ((r"K").toList) none 0).sizableSizeOf = none ∧
      lookupA ([] : SizeRegistry) (PriceInfo.other ((r"K").toList) none 0).typeOf = none ∧
      EstimatePriceInfoSize [] (some (.other ((r"K").toList) none 0)) = 100) :=
  ⟨⟨rfl, (C8_estimate_priority [] (.other ((r"K").toList) (some 42) 0)).1 42 rfl⟩,
   ⟨rfl, rfl,
    ((C8_estimate_priority [] (.other ((r"K").toList) none 0)).2.2 rfl rfl).2.2
      ((r"K").toList) 0 rfl⟩⟩

/-- C10: calling GetUint64SatoshiPrice on a ChainlinkPrice whose Answer is
nil is not total: GetPriceInSatoshi returns a nil result together with an
error, and GetUint64SatoshiPrice discards the error and dereferences the
nil result — a run-time panic, modelled as `none`. -/
theorem C10_get_uint64_satoshi_nil_answer (p : ChainlinkPrice) (h : p.Answer = none) :
    p.GetPriceInSatoshi = (none, some ((r"Answer is nil").toList)) ∧
    p.GetUint64SatoshiPrice = none := by
  unfold ChainlinkPrice.GetUint64SatoshiPrice ChainlinkPrice.GetPriceInSatoshi
  rw [h]
  exact ⟨rfl, rfl⟩

/-- Witness for C10 at a concrete unpopulated record. -/
theorem C10_get_uint64_satoshi_nil_answer_witness :
    ({ RoundID := none, Answer := none, StartedAt := none, UpdatedAt := none,
       AnsweredInRound := none, Timestamp := 0, Exponent := -8, NetworkID := 1,
       FeedAddress := [] } : ChainlinkPrice).Answer = none ∧
    ({ RoundID := none, Answer := none, StartedAt := none, UpdatedAt := none,
       AnsweredInRound := none, Timestamp := 0, Exponent := -8, NetworkID := 1,
       FeedAddress := [] } : ChainlinkPrice).GetPriceInSatoshi
      = (none, some ((r"Answer is nil").toList)) ∧
    ({ RoundID := none, Answer := none, StartedAt := none, UpdatedAt := none,
       AnsweredInRound := none, Timestamp := 0, Exponent := -8, NetworkID := 1,
       FeedAddress := [] } : ChainlinkPrice).GetUint64SatoshiPrice = none :=
  ⟨rfl,
   (C10_get_uint64_satoshi_nil_answer _ rfl).1,
   (C10_get_uint64_satoshi_nil_answer _ rfl).2⟩

/-- Go's `strings.Contains(s, sub)`: `sub` occurs contiguously in `s`. -/
def containsGo (s sub : Str) : Bool :=
  (List.range (s.length + 1)).any (fun i => sub.isPrefixOf (s.drop i))

/-- IsErrorCode32097 from the chainlink package: substring match of the
error text against the known revert/transient-failure markers.  The Go
function is only reached with a non-nil error, whose text is the input. -/
def IsErrorCode32097 (errStr : Str) : Bool :=
  containsGo errStr ((r"-32097").toList) || containsGo errStr ((r"32097").toList) ||
    containsGo errStr ((r"execution reverted").toList) ||
    containsGo errStr ((r"revert").toList)

/-- Round data returned by the aggregator contract (all fields non-nil). -/
structure RoundData where
  RoundId : Int
  Answer : Int
  StartedAt : Int
  UpdatedAt : Int
  AnsweredInRound : Int
deriving DecidableEq

/-- The RPCSwitcher collaborator, indexed by the attempt on which it is
called: `SwitchRPCEndpointImmediately` returns an error or nothing,
`GetBestClient` returns a fresh transport or an error.  The transport
handle itself is opaque — the upstream responses below are indexed by
attempt number, which subsumes the client identity. -/
structure RPCSwitcherW where
  SwitchRPCEndpointImmediately : Nat → Nat → Option Str
  GetBestClient : Nat → Nat → Except Str Unit

/-- FetchPriceDataOptions from the chainlink package.  `ClientPresent`
models the `Client != nil` check; `RetryDelay` is milliseconds. -/
structure FetchPriceDataOptions where
  NetworkID : Nat
  FeedAddress : Str
  ClientPresent : Bool
  RPCSwitcher : Option RPCSwitcherW
  MaxRetries : Nat
  RetryDelay : Nat

/-- Behaviour of the external chain at each attempt: contract construction,
`LatestRoundData`, `Decimals`, and the wall clock. -/
structure ChainWorld where
  newAggregatorErr : Nat → Option Str
  LatestRoundData : Nat → Except Str RoundData
  Decimals : Nat → Except Str Nat
  nowAt : Nat → Int

/-- fetchPriceDataWithRetry from the chainlink package, paired with the
number of upstream `LatestRoundData` attempts it performs.  On a
recognized failure with a switcher present and `attempt <= MaxRetries`, it
switches, fetches a new client and retries with `attempt + 1`.  In the Go
source, `if err := ...SwitchRPCEndpointImmediately(...)` and
`newClient, err := ...GetBestClient(...)` each declare a new `err` that
shadows the round-data error, so those two failure returns wrap the
switch error and the lookup error respectively; every other failure
return wraps the round-data error.  On success it reads `Decimals`
(falling back to 8) and builds the record. -/
def fetchPriceDataWithRetry (w : ChainWorld) (opts : FetchPriceDataOptions) (attempt : Nat) :
    Except Str ChainlinkPrice × Nat :=
  match w.newAggregatorErr attempt with
  | some e => (.error ((r"failed to create aggregator contract: ").toList ++ e), 0)
  | none =>
    match w.LatestRoundData attempt with
    | .error err =>
      match opts.RPCSwitcher with
      | some sw =>
        if h : IsErrorCode32097 err = true ∧ attempt ≤ opts.MaxRetries then
          match sw.SwitchRPCEndpointImmediately attempt opts.NetworkID with
          | some switchErr =>
            (.error ((r"failed to get latest round data: ").toList ++ switchErr), 1)
          | none =>
            match sw.GetBestClient attempt opts.NetworkID with
            | .error clientErr =>
              (.error ((r"failed to get latest round data: ").toList ++ clientErr), 1)
            | .ok _ =>
              let r1 := fetchPriceDataWithRetry w opts (attempt + 1)
              (r1.1, r1.2 + 1)
        else (.error ((r"failed to get latest round data: ").toList ++ err), 1)
      | none => (.error ((r"failed to get latest round data: ").toList ++ err), 1)
    | .ok roundData =>
      let decimals := match w.Decimals attempt with
        | .ok d => d
        | .error _ => 8
      (.ok { RoundID := some roundData.RoundId, Answer := some roundData.Answer,
             Exponent := -(decimals : Int), StartedAt := some roundData.StartedAt,
             UpdatedAt := some roundData.UpdatedAt,
             AnsweredInRound := some roundData.AnsweredInRound,
             Timestamp := w.nowAt attempt, NetworkID := opts.NetworkID,
             FeedAddress := opts.FeedAddress }, 1)
termination_by opts.MaxRetries + 1 - attempt
decreasing_by
  have := h.2
  omega

/-- FetchPriceData from the chainlink package: nil-client and empty-address
checks, defaulting of MaxRetries and RetryDelay, then the retry loop
starting at attempt 1. -/
def FetchPriceData (w : ChainWorld) (opts : FetchPriceDataOptions) :
    Except Str ChainlinkPrice × Nat :=
  if opts.ClientPresent = false then (.error ((r"client cannot be nil").toList), 0)
  else if opts.FeedAddress = [] then (.error ((r"feed address cannot be empty").toList), 0)
  else
    let opts1 := if opts.MaxRetries = 0 then { opts with MaxRetries := 1 } else opts
    let opts2 := if opts1.RetryDelay = 0 then { opts1 with RetryDelay := 2000 } else opts1
    fetchPriceDataWithRetry w opts2 1

/-- Per-feed body of updateAllPrices in chainlink_monitor.go: a failed
fetch is logged and skipped (the cache is untouched); a successful fetch
is written to the cache under the Chainlink source. -/
def storeFetchResult (reg : SizeRegistry) (pc : PriceCache) (networkID : Nat)
    (feedAddress : Str) (result : Except Str ChainlinkPrice) : PriceCache :=
  match result with
  | .error _ => pc
  | .ok priceData =>
    pc.UpdatePrice reg networkID feedAddress SourceChainlink (.chainlink priceData)

theorem fetch_attempts_le_aux (w : ChainWorld) (opts : FetchPriceDataOptions) :
    ∀ (k attempt : Nat), opts.MaxRetries + 1 - attempt ≤ k →
      (fetchPriceDataWithRetry w opts attempt).2 ≤ max 1 (opts.MaxRetries + 2 - attempt) := by
  intro k
  induction k with
  | zero =>
    intro attempt hk
    rw [fetchPriceDataWithRetry]
    split
    · simp
    · split
      · split
        · split
          · rename_i hcond
            have h2 := hcond.2
            split
            · simp
            · split
              · simp
              · omega
          · simp
        · simp
      · simp
  | succ k ih =>
    intro attempt hk
    rw [fetchPriceDataWithRetry]
    split
    · simp
    · split
      · split
        · split
          · rename_i hcond
            have h2 := hcond.2
            split
            · simp
            · split
              · simp
              · have hrec := ih (attempt + 1) (by omega)
                show (fetchPriceDataWithRetry w opts (attempt + 1)).2 + 1
                  ≤ max 1 (opts.MaxRetries + 2 - attempt)
                omega
          · simp
        · simp
      · simp

/-- Concrete round data for the failover scenario. -/
def c3RoundData : RoundData :=
  { RoundId := 7, Answer := 5000000000, StartedAt := 100, UpdatedAt := 101,
    AnsweredInRound := 7 }

/-- A provider that returns the recognized failure signature on the first
two attempts and succeeds on the third. -/
def c3World : ChainWorld :=
  { newAggregatorErr := fun _ => none,
    LatestRoundData := fun attempt =>
      if attempt ≤ 2 then .error ((r"execution reverted").toList) else .ok c3RoundData,
    Decimals := fun _ => .ok 8,
    nowAt := fun _ => 1000 }

/-- A switcher whose switch and client lookup always succeed. -/
def c3Switcher : RPCSwitcherW :=
  { SwitchRPCEndpointImmediately := fun _ _ => none,
    GetBestClient := fun _ _ => .ok () }

/-- Fetch options with MaxRetries = 2. -/
def c3Opts : FetchPriceDataOptions :=
  { NetworkID := 42161, FeedAddress := (r"0xfeed").toList, ClientPresent := true,
    RPCSwitcher := some c3Switcher, MaxRetries := 2, RetryDelay := 2000 }

/-- The record built from the third (successful) attempt. -/
def c3Price : ChainlinkPrice :=
  { RoundID := some 7, Answer := some 5000000000, Exponent := -8, StartedAt := some 100,
    UpdatedAt := some 101, AnsweredInRound := some 7, Timestamp := 1000, NetworkID := 42161,
    FeedAddress := (r"0xfeed").toList }

theorem c3_sig_recognized : IsErrorCode32097 ((r"execution reverted").toList) = true := by
  decide

theorem c3_fetch_eval3 : fetchPriceDataWithRetry c3World c3Opts 3 = (.ok c3Price, 1) := by
  rw [fetchPriceDataWithRetry]
  rfl

theorem c3_fetch_eval2 : fetchPriceDataWithRetry c3World c3Opts 2 = (.ok c3Price, 2) := by
  rw [fetchPriceDataWithRetry]
  simp only [show c3World.newAggregatorErr 2 = none from rfl,
    show c3World.LatestRoundData 2 = Except.error ((r"execution reverted").toList) from rfl,
    show c3Opts.RPCSwitcher = some c3Switcher from rfl]
  rw [dif_pos ⟨c3_sig_recognized, by decide⟩]
  simp only [show c3Switcher.SwitchRPCEndpointImmediately 2 c3Opts.NetworkID = none from rfl,
    show c3Switcher.GetBestClient 2 c3Opts.NetworkID = Except.ok () from rfl]
  rw [show (2:Nat) + 1 = 3 from rfl, c3_fetch_eval3]

theorem c3_fetch_eval1 : fetchPriceDataWithRetry c3World c3Opts 1 = (.ok c3Price, 3) := by
  rw [fetchPriceDataWithRetry]
  simp only [show c3World.newAggregatorErr 1 = none from rfl,
    show c3World.LatestRoundData 1 = Except.error ((r"execution reverted").toList) from rfl,
    show c3Opts.RPCSwitcher = some c3Switcher from rfl]
  rw [dif_pos ⟨c3_sig_recognized, by decide⟩]
  simp only [show c3Switcher.SwitchRPCEndpointImmediately 1 c3Opts.NetworkID = none from rfl,
    show c3Switcher.GetBestClient 1 c3Opts.NetworkID = Except.ok () from rfl]
  rw [show (1:Nat) + 1 = 2 from rfl, c3_fetch_eval2]

/-- C3: for every fetch call the number of upstream attempts performed by
fetchPriceDataWithRetry is at most MaxRetries + 1 (one initial attempt
plus at most MaxRetries extra); and with MaxRetries = 2 and a provider
that returns the recognized failure signature twice then succeeds, exactly
3 attempts are made and the cache ends up holding the third attempt's
value. -/
theorem C3_retry_bound_and_failover_scenario :
    (∀ (w : ChainWorld) (opts : FetchPriceDataOptions),
      (fetchPriceDataWithRetry w opts 1).2 ≤ opts.MaxRetries + 1) ∧
    (fetchPriceDataWithRetry c3World c3Opts 1).2 = 3 ∧
    (fetchPriceDataWithRetry c3World c3Opts 1).1 = .ok c3Price ∧
    (storeFetchResult [] NewPriceCache 42161 ((r"0xfeed").toList)
        (fetchPriceDataWithRetry c3World c3Opts 1).1).GetPrice 42161 ((r"0xfeed").toList)
        SourceChainlink = .ok (.chainlink c3Price) := by
  refine ⟨?_, ?_, ?_, ?_⟩
  · intro w opts
    have := fetch_attempts_le_aux w opts (opts.MaxRetries + 1) 1 (by omega)
    omega
  · rw [c3_fetch_eval1]
  · rw [c3_fetch_eval1]
  · rw [c3_fetch_eval1]
    rfl

/-- C4 (amended): when the upstream round-data call fails and no
alternative endpoint can be taken, the fetch returns an error wrapped in
the fixed "failed to get latest round data: " text and a failed fetch
never writes the price cache.  The wrapped payload is the original
upstream error when no switcher is configured, the failure signature is
not recognized, or the retries are exhausted; when the switch itself
errors or the client lookup errors, Go's shadowed `err` makes the return
wrap that switch or lookup error instead.  The original claim's words
"returns the original upstream error unchanged" are refuted by
`C4_error_unchanged_counterexample`. -/
theorem C4_failover_error_and_no_cache_write :
    (∀ (w : ChainWorld) (opts : FetchPriceDataOptions) (attempt : Nat) (err : Str),
      w.newAggregatorErr attempt = none →
      w.LatestRoundData attempt = .error err →
      ((opts.RPCSwitcher = none ∨ IsErrorCode32097 err = false ∨
          opts.MaxRetries < attempt →
        (fetchPriceDataWithRetry w opts attempt).1
          = .error ((r"failed to get latest round data: ").toList ++ err)) ∧
      (∀ sw switchErr, opts.RPCSwitcher = some sw → IsErrorCode32097 err = true →
        attempt ≤ opts.MaxRetries →
        sw.SwitchRPCEndpointImmediately attempt opts.NetworkID = some switchErr →
        (fetchPriceDataWithRetry w opts attempt).1
          = .error ((r"failed to get latest round data: ").toList ++ switchErr)) ∧
      (∀ sw clientErr, opts.RPCSwitcher = some sw → IsErrorCode32097 err = true →
        attempt ≤ opts.MaxRetries →
        sw.SwitchRPCEndpointImmediately attempt opts.NetworkID = none →
        sw.GetBestClient attempt opts.NetworkID = .error clientErr →
        (fetchPriceDataWithRetry w opts attempt).1
          = .error ((r"failed to get latest round data: ").toList ++ clientErr)))) ∧
    (∀ (reg : SizeRegistry) (pc : PriceCache) (networkID : Nat) (feedAddress e : Str),
      storeFetchResult reg pc networkID feedAddress (.error e) = pc) := by
  constructor
  · intro w opts attempt err h1 h2
    refine ⟨?_, ?_, ?_⟩
    · intro h3
      rw [fetchPriceDataWithRetry]
      simp only [h1, h2]
      rcases h3 with h3 | h3 | h3
      · rw [h3]
      · cases hsw : opts.RPCSwitcher with
        | none => rfl
        | some sw =>
          dsimp only
          rw [dif_neg (by rw [h3]; simp)]
      · cases hsw : opts.RPCSwitcher with
        | none => rfl
        | some sw =>
          dsimp only
          rw [dif_neg (by omega)]
    · intro sw switchErr hsw hsig hle hswitch
      rw [fetchPriceDataWithRetry]
      simp only [h1, h2, hsw]
      rw [dif_pos ⟨hsig, hle⟩, hswitch]
    · intro sw clientErr hsw hsig hle hswitch hclient
      rw [fetchPriceDataWithRetry]
      simp only [h1, h2, hsw]
      rw [dif_pos ⟨hsig, hle⟩, hswitch, hclient]
  · intro reg pc networkID feedAddress e
    rfl

/-- A provider that always fails with the recognized signature. -/
def c4World : ChainWorld :=
  { newAggregatorErr := fun _ => none,
    LatestRoundData := fun _ => .error ((r"-32097 boom").toList),
    Decimals := fun _ => .ok 8,
    nowAt := fun _ => 0 }

/-- A switcher whose switch call itself errors. -/
def c4Switcher : RPCSwitcherW :=
  { SwitchRPCEndpointImmediately := fun _ _ => some ((r"no endpoints").toList),
    GetBestClient := fun _ _ => .error ((r"no client").toList) }

/-- Fetch options using the failing switcher. -/
def c4Opts : FetchPriceDataOptions :=
  { NetworkID := 1, FeedAddress := (r"0xfeed").toList, ClientPresent := true,
    RPCSwitcher := some c4Switcher, MaxRetries := 1, RetryDelay := 2000 }

/-- Fetch options with no switcher configured. -/
def c4OptsNoSwitcher : FetchPriceDataOptions :=
  { NetworkID := 1, FeedAddress := (r"0xfeed").toList, ClientPresent := true,
    RPCSwitcher := none, MaxRetries := 1, RetryDelay := 2000 }

/-- A switcher whose switch succeeds but whose client lookup errors. -/
def c4SwitcherLookup : RPCSwitcherW :=
  { SwitchRPCEndpointImmediately := fun _ _ => none,
    GetBestClient := fun _ _ => .error ((r"no client").toList) }

/-- Fetch options using the lookup-failing switcher. -/
def c4OptsLookup : FetchPriceDataOptions :=
  { NetworkID := 1, FeedAddress := (r"0xfeed").toList, ClientPresent := true,
    RPCSwitcher := some c4SwitcherLookup, MaxRetries := 1, RetryDelay := 2000 }

theorem c4_fetch_eval : fetchPriceDataWithRetry c4World c4Opts 1
    = (.error ((r"failed to get latest round data: ").toList ++ (r"no endpoints").toList),
        1) := by
  rw [fetchPriceDataWithRetry]
  simp only [show c4World.newAggregatorErr 1 = none from rfl,
    show c4World.LatestRoundData 1 = Except.error ((r"-32097 boom").toList) from rfl,
    show c4Opts.RPCSwitcher = some c4Switcher from rfl]
  rw [dif_pos ⟨by decide, by decide⟩]
  rfl

/-- Counterexample to C4 as stated: at a concrete input where the upstream
call fails with "-32097 boom" and the switch fails with "no endpoints",
the fetch returns the wrapped switch error — an error, but not the
original upstream error unchanged (the original text is not even part of
the returned message). -/
theorem C4_error_unchanged_counterexample :
    (fetchPriceDataWithRetry c4World c4Opts 1).1
      = .error ((r"failed to get latest round data: ").toList ++ (r"no endpoints").toList) ∧
    (fetchPriceDataWithRetry c4World c4Opts 1).1 ≠ .error ((r"-32097 boom").toList) := by
  rw [c4_fetch_eval]
  constructor
  · rfl
  · intro h
    have h1 := Except.error.inj h
    have h2 := congrArg List.length h1
    simp at h2

/-- Witness for C4 at concrete inputs: all three no-alternative cases and
the untouched cache. -/
theorem C4_failover_error_and_no_cache_write_witness :
    (fetchPriceDataWithRetry c4World c4OptsNoSwitcher 1).1
      = .error ((r"failed to get latest round data: ").toList ++ (r"-32097 boom").toList) ∧
    (fetchPriceDataWithRetry c4World c4Opts 1).1
      = .error ((r"failed to get latest round data: ").toList ++ (r"no endpoints").toList) ∧
    (fetchPriceDataWithRetry c4World c4OptsLookup 1).1
      = .error ((r"failed to get latest round data: ").toList ++ (r"no client").toList) ∧
    storeFetchResult [] NewPriceCache 1 ((r"0xfeed").toList) (.error ((r"x").toList))
      = NewPriceCache :=
  ⟨(C4_failover_error_and_no_cache_write.1 c4World c4OptsNoSwitcher 1
      ((r"-32097 boom").toList) rfl rfl).1 (Or.inl rfl),
   (C4_failover_error_and_no_cache_write.1 c4World c4Opts 1
      ((r"-32097 boom").toList) rfl rfl).2.1 c4Switcher ((r"no endpoints").toList) rfl
      (by decide) (by decide) rfl,
   (C4_failover_error_and_no_cache_write.1 c4World c4OptsLookup 1
      ((r"-32097 boom").toList) rfl rfl).2.2 c4SwitcherLookup ((r"no client").toList) rfl
      (by decide) (by decide) rfl rfl,
   C4_failover_error_and_no_cache_write.2 [] NewPriceCache 1 ((r"0xfeed").toList)
     ((r"x").toList)⟩

/-- LatencyConcurrentBox from rpcscan/rpcswitcher.go: one probe result.
A dial failure, call failure or timeout yields latency 0. -/
structure LatencyConcurrentBox where
  endpoint : Str
  latency : Int
  networkId : Nat
deriving DecidableEq

/-- Go's `time.Duration(1<<63 - 1)`, the initial best-latency bound. -/
def maxDurationGo : Int := 2 ^ 63 - 1

/-- The per-network selection fold of getBestRPCEndpointsParallel: keep the
strictly smallest positive latency seen so far; the empty endpoint with
the maximal duration is the starting state. -/
def findBestEndpoint (results : List LatencyConcurrentBox) : Str × Int :=
  results.foldl (fun best result =>
    if 0 < result.latency ∧ result.latency < best.2 then (result.endpoint, result.latency)
    else best) ([], maxDurationGo)

/-- Go's `strconv.ParseUint(s, 10, 64)`: digits only, value below 2^64. -/
def parseUint64Go (s : Str) : Option Nat :=
  if s = [] then none
  else if s.all (fun c => c.isDigit) then
    if decValue s < 2 ^ 64 then some (decValue s) else none
  else none

/-- RPCConfig from rpcscan/rpcswitcher.go (NetworkID is a decimal string). -/
structure RPCConfig where
  NetworkID : Str
  NameStd : Str
  NameCoinr : Str
  WrappedToken : Str
  Endpoints : List Str
  ApprovalSrc : List (Str × Str)
deriving DecidableEq

/-- EthereumClient from rpcscan/rpcswitcher.go; the dialed connection is an
opaque handle. -/
structure EthereumClient where
  NetworkID : Nat
  eth_client : Nat
  last_updated : Int
deriving DecidableEq

/-- Behaviour of the network during one probing cycle: measured latency per
(network id string, endpoint), `ethclient.Dial` results, and the clock. -/
structure RpcWorld where
  latency : Str → Str → Int
  dial : Str → Option Nat
  timeNow : Int

/-- checkLatencyCon from rpcscan/rpcswitcher.go: probe one endpoint; a
failure is the zero-latency sentinel (folded into the world's `latency`),
and the network id parse error is ignored (value 0). -/
def checkLatencyCon (w : RpcWorld) (netID : Str) (endpoint_rpc : Str) : LatencyConcurrentBox :=
  { endpoint := endpoint_rpc, latency := w.latency netID endpoint_rpc,
    networkId := (parseUint64Go netID).getD 0 }

/-- getBestRPCEndpointsParallel from rpcscan/rpcswitcher.go: per network,
probe every endpoint, pick the strictly smallest positive latency, and
record the winner only when one exists (networks with unparsable ids are
skipped).  The concurrent fan-in is modelled by the list of results in
endpoint order; the proved properties are order-independent. -/
def getBestRPCEndpointsParallel (w : RpcWorld) (networks : List RPCConfig) :
    List (Nat × Str) :=
  networks.foldl (fun bestEndpoints network =>
    match parseUint64Go network.NetworkID with
    | none => bestEndpoints
    | some networkID =>
      let results := network.Endpoints.map (fun ep => checkLatencyCon w network.NetworkID ep)
      let best := findBestEndpoint results
      if best.1 = [] then bestEndpoints else insertA bestEndpoints networkID best.1) []

/-- NewEthereumClient from rpcscan/rpcswitcher.go: dial, or fail. -/
def NewEthereumClient (w : RpcWorld) (endpoint : Str) : Option EthereumClient :=
  (w.dial endpoint).map (fun handle =>
    { NetworkID := 0, eth_client := handle, last_updated := 0 })

/-- One tick of MonitorAllRPCEndpoints: compute the best endpoints, then
for each winner dial a client (skipping failures) and publish it in the
shared per-network table with its network id and the current time. -/
def MonitorAllRPCEndpointsTick (w : RpcWorld) (networks : List RPCConfig)
    (clientUse : List (Nat × EthereumClient)) : List (Nat × EthereumClient) :=
  (getBestRPCEndpointsParallel w networks).foldl (fun cu p =>
    match NewEthereumClient w p.2 with
    | none => cu
    | some client =>
      insertA cu p.1 { client with NetworkID := p.1, last_updated := w.timeNow }) clientUse

theorem findBest_foldl_keep (l : List LatencyConcurrentBox) (b : Str × Int)
    (h : ∀ x ∈ l, ¬(0 < x.latency ∧ x.latency < b.2)) :
    l.foldl (fun best result =>
      if 0 < result.latency ∧ result.latency < best.2 then (result.endpoint, result.latency)
      else best) b = b := by
  induction l with
  | nil => rfl
  | cons x rest ih =>
    simp only [List.foldl_cons, if_neg (h x (List.mem_cons_self _ _))]
    exact ih (fun y hy => h y (List.mem_cons_of_mem _ hy))

theorem findBest_foldl_min (l : List LatencyConcurrentBox) (rbox : LatencyConcurrentBox) :
    ∀ b : Str × Int, rbox ∈ l → 0 < rbox.latency → rbox.latency < b.2 →
    (∀ x ∈ l, x ≠ rbox → x.latency ≤ 0 ∨ rbox.latency < x.latency) →
    l.foldl (fun best result =>
      if 0 < result.latency ∧ result.latency < best.2 then (result.endpoint, result.latency)
      else best) b = (rbox.endpoint, rbox.latency) := by
  induction l with
  | nil => intro b hmem; cases hmem
  | cons x rest ih =>
    intro b hmem h0 hb hbad
    by_cases hx : x = rbox
    · subst hx
      simp only [List.foldl_cons]
      rw [if_pos (And.intro h0 hb)]
      apply findBest_foldl_keep
      intro y hy
      by_cases hyx : y = x
      · subst hyx
        simp
      · rcases hbad y (List.mem_cons_of_mem _ hy) hyx with h' | h'
        · intro hc
          omega
        · intro hc
          omega
    · have hmem' : rbox ∈ rest := by
        rcases List.mem_cons.1 hmem with h' | h'
        · exact absurd h'.symm hx
        · exact h'
      have hbad' : ∀ y ∈ rest, y ≠ rbox → y.latency ≤ 0 ∨ rbox.latency < y.latency :=
        fun y hy => hbad y (List.mem_cons_of_mem _ hy)
      simp only [List.foldl_cons]
      by_cases hc : 0 < x.latency ∧ x.latency < b.2
      · rw [if_pos hc]
        rcases hbad x (List.mem_cons_self _ _) hx with h' | h'
        · omega
        · exact ih (x.endpoint, x.latency) hmem' h0 h' hbad'
      · rw [if_neg hc]
        exact ih b hmem' h0 hb hbad'

theorem getBest_not_mem (w : RpcWorld) (nid : Nat) :
    ∀ (networks : List RPCConfig) (acc : List (Nat × Str)),
    (∀ cfg ∈ networks, parseUint64Go cfg.NetworkID = some nid →
      ∀ ep ∈ cfg.Endpoints, w.latency cfg.NetworkID ep ≤ 0) →
    nid ∉ acc.map Prod.fst →
    nid ∉ (networks.foldl (fun bestEndpoints network =>
      match parseUint64Go network.NetworkID with
      | none => bestEndpoints
      | some networkID =>
        let results := network.Endpoints.map (fun ep => checkLatencyCon w network.NetworkID ep)
        let best := findBestEndpoint results
        if best.1 = [] then bestEndpoints else insertA bestEndpoints networkID best.1)
      acc).map Prod.fst := by
  intro networks
  induction networks with
  | nil => intro acc _ hacc; exact hacc
  | cons cfg rest ih =>
    intro acc hall hacc
    simp only [List.foldl_cons]
    cases hp : parseUint64Go cfg.NetworkID with
    | none =>
      exact ih acc (fun c hc => hall c (List.mem_cons_of_mem _ hc)) hacc
    | some m =>
      by_cases hm : m = nid
      · subst hm
        have hflat : findBestEndpoint
            (cfg.Endpoints.map (fun ep => checkLatencyCon w cfg.NetworkID ep))
            = ([], maxDurationGo) := by
          apply findBest_foldl_keep
          intro x hx
          simp only [List.mem_map] at hx
          obtain ⟨ep, hep, hxe⟩ := hx
          have := hall cfg (List.mem_cons_self _ _) hp ep hep
          rw [← hxe]
          simp only [checkLatencyCon]
          intro hcon
          omega
        dsimp only
        rw [hflat]
        simp only [if_pos rfl]
        exact ih acc (fun c hc => hall c (List.mem_cons_of_mem _ hc)) hacc
      · dsimp only
        by_cases hbest : (findBestEndpoint
            (cfg.Endpoints.map (fun ep => checkLatencyCon w cfg.NetworkID ep))).1 = []
        · rw [if_pos hbest]
          exact ih acc (fun c hc => hall c (List.mem_cons_of_mem _ hc)) hacc
        · rw [if_neg hbest]
          apply ih _ (fun c hc => hall c (List.mem_cons_of_mem _ hc))
          rw [map_fst_insertA]
          by_cases hmm : m ∈ acc.map Prod.fst
          · simpa [hmm] using hacc
          · simp only [hmm, if_false]
            simp only [List.mem_append, List.mem_singleton]
            push_neg
            exact ⟨hacc, fun h => hm h.symm⟩

theorem tick_foldl_preserves (w : RpcWorld) (nid : Nat) :
    ∀ (l : List (Nat × Str)) (cu : List (Nat × EthereumClient)),
    (∀ p ∈ l, p.1 ≠ nid) →
    lookupA (l.foldl (fun cu p =>
      match NewEthereumClient w p.2 with
      | none => cu
      | some client =>
        insertA cu p.1 { client with NetworkID := p.1, last_updated := w.timeNow }) cu) nid
      = lookupA cu nid := by
  intro l
  induction l with
  | nil => intro cu _; rfl
  | cons p rest ih =>
    intro cu hl
    simp only [List.foldl_cons]
    cases hd : NewEthereumClient w p.2 with
    | none => exact ih cu (fun q hq => hl q (List.mem_cons_of_mem _ hq))
    | some client =>
      rw [ih _ (fun q hq => hl q (List.mem_cons_of_mem _ hq))]
      exact lookupA_insertA_ne _ _ _ _ (fun h => hl p (List.mem_cons_self _ _) h.symm)

/-- C5: from a batch of probe results the selector chooses the endpoint
with the strictly smallest positive measured latency (zero-latency failure
sentinels are never candidates); and when no probe of a network produced a
positive latency, no endpoint is selected for it and the network's
previously published client in the shared table is unchanged. -/
theorem C5_latency_selection :
    (∀ (results : List LatencyConcurrentBox) (rbox : LatencyConcurrentBox),
      rbox ∈ results → 0 < rbox.latency → rbox.latency < maxDurationGo →
      (∀ x ∈ results, x ≠ rbox → x.latency ≤ 0 ∨ rbox.latency < x.latency) →
      findBestEndpoint results = (rbox.endpoint, rbox.latency)) ∧
    (∀ (w : RpcWorld) (networks : List RPCConfig) (clientUse : List (Nat × EthereumClient))
        (nid : Nat),
      (∀ cfg ∈ networks, parseUint64Go cfg.NetworkID = some nid →
        ∀ ep ∈ cfg.Endpoints, w.latency cfg.NetworkID ep ≤ 0) →
      lookupA (getBestRPCEndpointsParallel w networks) nid = none ∧
      lookupA (MonitorAllRPCEndpointsTick w networks clientUse) nid
        = lookupA clientUse nid) := by
  constructor
  · intro results rbox hmem h0 hmax hbad
    exact findBest_foldl_min results rbox ([], maxDurationGo) hmem h0 hmax hbad
  · intro w networks clientUse nid hall
    have hnot : nid ∉ (getBestRPCEndpointsParallel w networks).map Prod.fst :=
      getBest_not_mem w nid networks [] hall (by simp)
    constructor
    · exact (lookupA_eq_none_iff _ _).2 hnot
    · exact tick_foldl_preserves w nid (getBestRPCEndpointsParallel w networks) clientUse
        (fun p hp h => hnot (h ▸ List.mem_map_of_mem Prod.fst hp))

/-- Probe results measuring 120ms, 45ms and a failed probe. -/
def c5Results : List LatencyConcurrentBox :=
  [{ endpoint := (r"epA").toList, latency := 120000000, networkId := 1 },
   { endpoint := (r"epB").toList, latency := 45000000, networkId := 1 },
   { endpoint := (r"epC").toList, latency := 0, networkId := 1 }]

/-- A cycle in which every probe fails. -/
def c5World : RpcWorld := { latency := fun _ _ => 0, dial := fun _ => none, timeNow := 0 }

/-- A single network with id 7 and one endpoint. -/
def c5Networks : List RPCConfig :=
  [{ NetworkID := (r"7").toList, NameStd := [], NameCoinr := [], WrappedToken := [],
     Endpoints := [(r"https").toList], ApprovalSrc := [] }]

/-- The previously published client for network 7. -/
def c5ClientUse : List (Nat × EthereumClient) :=
  [(7, { NetworkID := 7, eth_client := 3, last_updated := 9 })]

/-- Witness for C5 at concrete probe batches. -/
theorem C5_latency_selection_witness :
    (findBestEndpoint c5Results = ((r"epB").toList, 45000000)) ∧
    (lookupA (getBestRPCEndpointsParallel c5World c5Networks) 7 = none ∧
      lookupA (MonitorAllRPCEndpointsTick c5World c5Networks c5ClientUse) 7
        = lookupA c5ClientUse 7) :=
  ⟨C5_latency_selection.1 c5Results
      { endpoint := (r"epB").toList, latency := 45000000, networkId := 1 }
      (by decide) (by decide) (by decide) (by decide),
   C5_latency_selection.2 c5World c5Networks c5ClientUse 7 (by decide)⟩
